import Mathlib

/-!
Verification of the Echo Image Viewer core: the sandboxed path resolver
(`get_safe_browse_path` / `get_safe_gallery_path` in `backend/main.py`) and the
non-destructive edit pipeline (`ImageProcessor.apply_edits` in
`backend/image_processor.py`), as a shallow embedding in Lean.

Modelling conventions:
* An absolute canonical filesystem path is a list of path segments
  (`List String`).  OS-level canonicalization — `pathlib.Path.resolve()`, which
  follows symlinks and collapses `.`/`..` — is an oracle `Fs.resolve` the
  embedding is parameterized over, so every theorem quantifies over all
  possible symlink/`..` resolution behaviours.
* `Path(s).as_posix().lstrip("/")` followed by joining onto a root is embedded
  as `cleanSegs`: splitting the client string on `/` and dropping empty and
  `"."` segments (pathlib's pure normalization); `..` segments are kept and
  left for the `resolve` oracle, exactly as in the source.
* `full_path.relative_to(r)` succeeds iff `r`'s segments are a prefix of
  `full_path`'s segments; the embedding uses `List.isPrefixOf`.
* Python exceptions (`HTTPException`, `ValueError`) become `Except` errors.
-/

/-- Error outcomes of the sandboxed path resolver (`HTTPException`s in the
source): 403 "path outside browse/gallery root" and 400 "No gallery selected". -/
inductive SandboxError where
  | pathOutsideRoot
  | galleryNotSelected
deriving DecidableEq, Repr

/-- The filesystem oracle: `resolve` is the canonicalization performed by
`pathlib.Path.resolve()` (symlinks followed, `.`/`..` collapsed).  It is a
parameter of the embedding, so theorems hold for every filesystem. -/
structure Fs where
  resolve : List String → List String

/-- `Path(relative_path).as_posix().lstrip("/")`, split into segments:
pathlib's pure normalization drops empty and `"."` segments and the leading
root marker; `..` segments survive.  (The source keeps the result as a string
and re-splits it when joining; segment lists make the join explicit.  The one
string-level divergence, input `"."`, normalizes to the string `"."` — truthy —
but joining `"."` onto the root is also a no-op, so both branches of the
embedding agree with the source there.) -/
def splitSlash : List Char → List Char → List (List Char)
  | [], acc => [acc.reverse]
  | c :: rest, acc =>
      if c = '/' then acc.reverse :: splitSlash rest []
      else splitSlash rest (c :: acc)

/-- Splitting a string at `'/'` characters: same result as
`String.splitOn "/"` (Python `str.split("/")`), implemented by structural
recursion so that concrete instances evaluate inside the kernel. -/
def slashSegs (relativePath : String) : List String :=
  (splitSlash relativePath.data []).map List.asString

def cleanSegs (relativePath : String) : List String :=
  (slashSegs relativePath).filter (fun seg => seg != "" && seg != ".")

/-- `get_safe_browse_path` from `backend/main.py` (lines 210–224): normalize
the client path, join it onto `BROWSE_ROOT`, resolve, and accept only if the
result is still under the resolved root (`Path.relative_to` succeeds iff the
root's segments are a prefix). -/
def get_safe_browse_path (fs : Fs) (browseRoot : List String) (relativePath : String) :
    Except SandboxError (List String) :=
  let clean := cleanSegs relativePath
  let fullPath := if clean.isEmpty then fs.resolve browseRoot
                  else fs.resolve (browseRoot ++ clean)
  if (fs.resolve browseRoot).isPrefixOf fullPath then .ok fullPath
  else .error .pathOutsideRoot

/-- `get_safe_gallery_path` from `backend/main.py` (lines 227–247): reject an
empty gallery root, resolve the gallery root against the browse root via
`get_safe_browse_path`, then run the same normalize/join/resolve/check logic
(duplicated inline in the source) against the gallery base. -/
def get_safe_gallery_path (fs : Fs) (browseRoot : List String)
    (relativePath galleryRoot : String) :
    Except SandboxError (List String × List String) :=
  if galleryRoot = "" then .error .galleryNotSelected
  else
    match get_safe_browse_path fs browseRoot galleryRoot with
    | .error e => .error e
    | .ok galleryBase =>
      let clean := cleanSegs relativePath
      let fullPath := if clean.isEmpty then fs.resolve galleryBase
                      else fs.resolve (galleryBase ++ clean)
      if (fs.resolve galleryBase).isPrefixOf fullPath then .ok (fullPath, galleryBase)
      else .error .pathOutsideRoot

/-- The canonical candidate path of a browse request: the root joined with the
normalized relative path, fully resolved (the root alone when the normalized
input is empty). -/
def browseCandidate (fs : Fs) (browseRoot : List String) (relativePath : String) :
    List String :=
  if (cleanSegs relativePath).isEmpty then fs.resolve browseRoot
  else fs.resolve (browseRoot ++ cleanSegs relativePath)

/-- Spec-side acceptance predicate: the candidate is equal to, or a descendant
of, the canonically-resolved root. -/
def descendantOrSelf (root p : List String) : Prop :=
  p = root ∨ ∃ rest, rest ≠ [] ∧ p = root ++ rest

/-!
## Edit pipeline (`ImageProcessor.apply_edits`, `backend/image_processor.py`)

* An in-memory PIL image is `Image`: width, height and an abstract pixel map
  (pixels as `Nat` codes; the x axis points right, the y axis down, as in PIL).
* PIL primitives whose exact pixel arithmetic is floating-point (LANCZOS /
  BICUBIC resampling, rotation by non-right angles) are oracles in `PilEnv`;
  the dimension arithmetic and the exact transpose fast paths of
  `PIL.Image.rotate` (angles 0/90/180/270 with `expand`) are embedded directly.
* JPEG encode/decode and RAW decode are the `Codec` oracle; `decode` bundles
  `Image.open`/`rawpy` + `exif_transpose` + the RGB flattening, which precede
  the operation loop and are irrelevant to the claims.
* The source's parent directory is an association list `Dir` from filename to
  file content; `image.save` appends an entry, and a raised `ValueError`
  (embedded as `Except.error`) leaves the directory untouched, exactly as in
  the source where `save` is the only write and is reached last.
-/

/-- An in-memory image: dimensions plus an abstract pixel map. -/
structure Image where
  width : Nat
  height : Nat
  pix : Nat → Nat → Nat

/-- Oracles for the PIL primitives whose pixel content involves floating-point
resampling.  `resample old oldW oldH newW newH` is the pixel map produced by
`Image.resize`/LANCZOS; `rotateGeneral img a` is `Image.rotate` for an angle
`a` that is not a multiple of 90 (bounding-box expansion uses `sin`/`cos`). -/
structure PilEnv where
  resample : (Nat → Nat → Nat) → Nat → Nat → Nat → Nat → (Nat → Nat → Nat)
  rotateGeneral : Image → Int → Image

/-- `PIL.Image.transpose(ROTATE_180)`: same dimensions, both axes mirrored. -/
def rotate180 (img : Image) : Image :=
  { width := img.width, height := img.height
    pix := fun x y => img.pix (img.width - 1 - x) (img.height - 1 - y) }

/-- `PIL.Image.transpose(ROTATE_90)` — 90° counter-clockwise, canvas swapped:
output pixel (x, y) comes from input pixel (W − 1 − y, x). -/
def rotate90ccw (img : Image) : Image :=
  { width := img.height, height := img.width
    pix := fun x y => img.pix (img.width - 1 - y) x }

/-- `PIL.Image.transpose(ROTATE_270)` — 90° clockwise, canvas swapped:
output pixel (x, y) comes from input pixel (y, H − 1 − x). -/
def rotate270ccw (img : Image) : Image :=
  { width := img.height, height := img.width
    pix := fun x y => img.pix y (img.height - 1 - x) }

/-- `PIL.Image.rotate(angle, expand=True, ...)` with its counter-clockwise
angle convention: `angle % 360` (Python `%`, i.e. `Int.emod`, result in
[0, 360)), then the exact transpose fast paths for 0/90/180/270 (taken since
`expand=True` and no center/translate are passed), else the floating-point
general path, delegated to the oracle. -/
def pilRotate (env : PilEnv) (img : Image) (angle : Int) : Image :=
  let a := angle % 360
  if a = 0 then img
  else if a = 180 then rotate180 img
  else if a = 90 then rotate90ccw img
  else if a = 270 then rotate270ccw img
  else env.rotateGeneral img a

/-- `ImageOps.mirror` (`FLIP_LEFT_RIGHT`): mirrors left-right. -/
def mirrorImage (img : Image) : Image :=
  { width := img.width, height := img.height
    pix := fun x y => img.pix (img.width - 1 - x) y }

/-- `ImageOps.flip` (`FLIP_TOP_BOTTOM`): mirrors top-bottom. -/
def flipImage (img : Image) : Image :=
  { width := img.width, height := img.height
    pix := fun x y => img.pix x (img.height - 1 - y) }

/-- `image.crop((x, y, x + w, y + h))` on already-validated bounds: dimensions
w × h, pixels shifted by the rectangle's top-left corner. -/
def cropImage (img : Image) (x y w h : Nat) : Image :=
  { width := w, height := h, pix := fun px py => img.pix (x + px) (y + py) }

/-- One edit operation, as the tagged dicts of the request body: each field is
`Option`al because the Python code reads it with `op.get(key, default)`.
`unknown` stands for every dict whose `"type"` value is none of the four
supported kinds (including a missing `"type"`, which `op.get` turns into
`None`, printed as `"None"`). -/
inductive EditOp where
  | rotate (angle : Option Int)
  | crop (x y w h : Option Int)
  | resize (w h : Option Int)
  | flip (direction : Option String)
  | unknown (ty : Option String)

/-- Errors raised inside `apply_edits`: `ValueError(msg)` — mapped by the
caller to `InvalidOperationParameters` (HTTP 400) — and the caller-level
404 for a missing source file. -/
inductive EditError where
  | invalidParams (msg : String)
  | notFound
deriving DecidableEq, Repr

/-- Python truthiness of an optional integer (`if width and height:` treats a
missing key and the value 0 alike as false). -/
def truthyInt (o : Option Int) : Bool :=
  match o with
  | none => false
  | some n => n != 0

/-- The body of the `for op in operations:` loop of `apply_edits`
(`backend/image_processor.py` lines 162–209), acting on the current in-memory
image.  Division in the one-sided resize branches is Python
`int(h * (w / W))`: truncation toward zero of the exact ratio (`Int.tdiv`;
the source computes it through binary floats, whose rounding is modelled as
exact rational arithmetic). -/
def applyOp (env : PilEnv) (img : Image) (op : EditOp) : Except EditError Image :=
  match op with
  | .rotate angle =>
      -- PIL rotates counter-clockwise, so the source negates for clockwise
      .ok (pilRotate env img (-(angle.getD 0)))
  | .crop ox oy ow oh =>
      let x := ox.getD 0
      let y := oy.getD 0
      let w := ow.getD ((img.width : Int) - x)
      let h := oh.getD ((img.height : Int) - y)
      if x < 0 ∨ y < 0 ∨ w ≤ 0 ∨ h ≤ 0 then
        .error (.invalidParams "Invalid crop dimensions")
      else if x + w > (img.width : Int) ∨ y + h > (img.height : Int) then
        .error (.invalidParams "Crop extends beyond image bounds")
      else
        .ok (cropImage img x.toNat y.toNat w.toNat h.toNat)
  | .resize ow oh =>
      if truthyInt ow && truthyInt oh then
        let w := ow.getD 0
        let h := oh.getD 0
        .ok { width := w.toNat, height := h.toNat
              pix := env.resample img.pix img.width img.height w.toNat h.toNat }
      else if truthyInt ow then
        let w := ow.getD 0
        let newH := ((img.height : Int) * w).tdiv (img.width : Int)
        .ok { width := w.toNat, height := newH.toNat
              pix := env.resample img.pix img.width img.height w.toNat newH.toNat }
      else if truthyInt oh then
        let h := oh.getD 0
        let newW := ((img.width : Int) * h).tdiv (img.height : Int)
        .ok { width := newW.toNat, height := h.toNat
              pix := env.resample img.pix img.width img.height newW.toNat h.toNat }
      else
        .ok img
  | .flip dir =>
      let direction := dir.getD "horizontal"
      if direction = "horizontal" then .ok (mirrorImage img)
      else if direction = "vertical" then .ok (flipImage img)
      else .error (.invalidParams ("Unknown flip direction: " ++ direction))
  | .unknown ty =>
      .error (.invalidParams ("Unknown operation type: " ++ ty.getD "None"))

/-- The `for op in operations:` loop itself: operations strictly in list
order, each acting on the image produced by the previous one; the first
`ValueError` aborts the whole request. -/
def applyOps (env : PilEnv) : Image → List EditOp → Except EditError Image
  | img, [] => .ok img
  | img, op :: rest =>
      match applyOp env img op with
      | .ok img' => applyOps env img' rest
      | .error e => .error e

/-- `Path(name).stem` for a plain filename: the name minus its last suffix,
where the suffix is the part from the last dot, unless that dot is the first
character (hidden files) or the last character (trailing dot). -/
def stemOf (name : String) : String :=
  let cs := name.data
  match cs.reverse.indexOf? '.' with
  | none => name
  | some revIdx =>
      let i := cs.length - 1 - revIdx
      if 0 < i ∧ i < cs.length - 1 then (cs.take i).asString else name

/-- The numbered collision-avoidance name
`f"{output_prefix}{stem}{output_suffix}_{counter}.jpg"` (`pre` is the fixed
part `output_prefix ++ stem ++ output_suffix`; Python's `str` on an `int` is
`Nat.repr`). -/
def numberedName (pre : String) (counter : Nat) : String :=
  pre ++ "_" ++ Nat.repr counter ++ ".jpg"

/-- The first-choice output name `f"{output_prefix}{stem}{output_suffix}.jpg"`. -/
def baseOutputName (pre : String) : String :=
  pre ++ ".jpg"

/-- The `while output_path.exists():` collision loop, with the counter at `c`
and explicit fuel (the Python loop is unbounded; `chooseOutputName` supplies
fuel `taken.length + 1`, which the termination theorem shows always reaches a
free name, so the embedding computes the loop's limit). -/
def searchFrom (taken : List String) (pre : String) : Nat → Nat → String
  | c, 0 => numberedName pre c
  | c, fuel + 1 =>
      if numberedName pre c ∈ taken then searchFrom taken pre (c + 1) fuel
      else numberedName pre c

/-- Output-naming phase of `apply_edits` (lines 211–221): try the base name,
then `_1`, `_2`, … until a name not present in the directory is found. -/
def chooseOutputName (taken : List String) (pre : String) : String :=
  if baseOutputName pre ∈ taken then searchFrom taken pre 1 (taken.length + 1)
  else baseOutputName pre

/-- The source file's parent directory: an association list from filename to
file content (content type `C` is abstract; `Path.exists` is name membership). -/
abbrev Dir (C : Type) : Type := List (String × C)

/-- Contents of a directory entry (`none` when no such file exists). -/
def lookupFile {C : Type} (d : Dir C) (name : String) : Option C :=
  (List.find? (fun p => p.1 == name) d).map (fun p => p.2)

/-- The filenames present in a directory (the names `Path.exists` is true of). -/
def fileNames {C : Type} (d : Dir C) : List String :=
  List.map (fun p => p.1) d

/-- The image decode/encode capability (black-box codec of the spec):
`decode` is the load phase of `apply_edits` (RAW decode via rawpy or
`Image.open` + `exif_transpose`, then flattening to RGB), `encodeJpeg` is
`image.save(..., format="JPEG", quality=90)`. -/
structure Codec (C : Type) where
  decode : C → Image
  encodeJpeg : Image → C

/-- `ImageProcessor.apply_edits` (`backend/image_processor.py` lines 123–226)
as a function of the source's directory: load the source, run the operation
loop, synthesize a collision-free output name, and append exactly one new
file.  Any error leaves the directory as it was (in the source the single
`image.save` is the last statement, after every possible `raise`). -/
def apply_edits {C : Type} (env : PilEnv) (codec : Codec C) (dir : Dir C)
    (srcName : String) (operations : List EditOp) ( output_prefix : String)
    ( output_suffix : String) : Except EditError (Dir C × String) :=
  match lookupFile dir srcName with
  | none => .error .notFound
  | some content =>
      match applyOps env (codec.decode content) operations with
      | .error e => .error e
      | .ok edited =>
          let pre := output_prefix ++ stemOf srcName ++ output_suffix
          let outName := chooseOutputName (fileNames dir) pre
          .ok (dir ++ [(outName, codec.encodeJpeg edited)], outName)

/-- The directory after an `apply_edits` call, on success and failure alike. -/
def applyEditsDir {C : Type} (env : PilEnv) (codec : Codec C) (dir : Dir C)
    (srcName : String) (operations : List EditOp) ( output_prefix : String)
    ( output_suffix : String) : Dir C :=
  match apply_edits env codec dir srcName operations output_prefix output_suffix with
  | .ok (d, _) => d
  | .error _ => dir

/-- Decimal digit string of a natural number (the mathematical recurrence
that `Nat.toDigitsCore`'s fuelled recursion implements). -/
def decDigits (n : Nat) : List Char :=
  if h : n / 10 = 0 then [Nat.digitChar (n % 10)]
  else
    have : n / 10 < n :=
      Nat.div_lt_self (Nat.pos_of_ne_zero (by intro h0; simp [h0] at h)) (by norm_num)
    decDigits (n / 10) ++ [Nat.digitChar (n % 10)]

/-- Numeric value of a decimal digit character. -/
def digitVal (c : Char) : Nat := c.toNat - 48

/-- Numeric value of a decimal digit string (left fold, most significant
digit first). -/
def charsVal (l : List Char) : Nat :=
  l.foldl (fun a c => 10 * a + digitVal c) 0

/-- Resize-to-fit as the spec's words describe it (claim-side definition, for
comparison with the code): scaled to fit within the `bw × bh` box while
preserving the aspect ratio. -/
def specFitWithinBox (w h bw bh : Nat) : Nat × Nat :=
  if bw * h ≤ bh * w then (bw, h * bw / w) else (w * bh / h, bh)

/-- The crop rejection condition of `apply_edits`, with the source's defaults:
`x`/`y` default to 0, `w`/`h` default to the remaining extent from `x`/`y` to
the image edge; reject when `x < 0`, `y < 0`, `w ≤ 0`, `h ≤ 0`, `x + w > W` or
`y + h > H` against the image's current dimensions. -/
def cropBad (img : Image) (ox oy ow oh : Option Int) : Prop :=
  ox.getD 0 < 0 ∨ oy.getD 0 < 0 ∨
  ow.getD ((img.width : Int) - ox.getD 0) ≤ 0 ∨
  oh.getD ((img.height : Int) - oy.getD 0) ≤ 0 ∨
  ox.getD 0 + ow.getD ((img.width : Int) - ox.getD 0) > (img.width : Int) ∨
  oy.getD 0 + oh.getD ((img.height : Int) - oy.getD 0) > (img.height : Int)

/-- A concrete 100 × 50 image for witnesses. -/
def img0 : Image :=
  { width := 100, height := 50, pix := fun _ _ => 0 }

/-- A concrete pixel-oracle environment for witnesses. -/
def pilEnv0 : PilEnv :=
  { resample := fun p _ _ _ _ => p, rotateGeneral := fun img _ => img }

/-- A concrete codec over `Nat` contents for witnesses: content `c` decodes to
a 100 × 50 image whose pixels all read `c`. -/
def codec0 : Codec Nat :=
  { decode := fun c => { width := 100, height := 50, pix := fun _ _ => c }
    encodeJpeg := fun img => img.width }

/-- A concrete filesystem oracle for witnesses: resolution collapses `..`
segments against the prefix already read (no symlinks), as `realpath` does on
a symlink-free tree. -/
def fs0 : Fs :=
  { resolve := fun segs =>
      segs.foldl (fun acc seg => if seg = ".." then acc.dropLast else acc ++ [seg]) [] }

lemma isPrefixOf_iff_descendantOrSelf (r p : List String) :
    r.isPrefixOf p = true ↔ descendantOrSelf r p := by
  rw [ List.isPrefixOf_iff_prefix]
  constructor
  · rintro ⟨t, rfl⟩
    cases t with
    | nil => exact Or.inl (by simp)
    | cons a t => exact Or.inr ⟨a :: t, by simp⟩
  · rintro (rfl | ⟨rest, _, rfl⟩)
    · exact ⟨[], by simp⟩
    · exact ⟨rest, rfl⟩

/-- C1: for every root directory, filesystem-resolution behaviour and
client-supplied relative path, the resolver returns the canonical candidate
(root joined with the normalized relative path, fully resolved) exactly when
that candidate is equal to, or a descendant of, the canonically-resolved
root; in every other case — `..` escape, symlink traversal, unrelated
absolute path — it rejects with the `PathOutsideRoot` denied-access error. -/
theorem browse_path_accepts_iff_descendant (fs : Fs) (root : List String)
    (rel : String) :
    (get_safe_browse_path fs root rel = .ok (browseCandidate fs root rel) ↔
      descendantOrSelf (fs.resolve root) (browseCandidate fs root rel)) ∧
    (get_safe_browse_path fs root rel = .error .pathOutsideRoot ↔
      ¬ descendantOrSelf (fs.resolve root) (browseCandidate fs root rel)) := by
  have hrfl : get_safe_browse_path fs root rel =
      if (fs.resolve root).isPrefixOf (browseCandidate fs root rel) then
        .ok (browseCandidate fs root rel)
      else .error .pathOutsideRoot := rfl
  by_cases h : descendantOrSelf (fs.resolve root) (browseCandidate fs root rel)
  · have hb : (fs.resolve root).isPrefixOf (browseCandidate fs root rel) = true :=
      (isPrefixOf_iff_descendantOrSelf _ _).mpr h
    rw [hrfl, if_pos hb]
    exact ⟨iff_of_true rfl h, iff_of_false (by simp) (not_not_intro h)⟩
  · have hb : ¬ ((fs.resolve root).isPrefixOf (browseCandidate fs root rel) = true) :=
      fun hc => h ((isPrefixOf_iff_descendantOrSelf _ _).mp hc)
    rw [hrfl, if_neg hb]
    exact ⟨iff_of_false (by simp) h, iff_of_true rfl h⟩

/-- C3: gallery-scoped resolution is two-phase — an empty gallery root is
rejected with `GalleryNotSelected` before any path resolution; otherwise the
gallery root is first resolved against the browse root, and the requested path
is then resolved against the resolved gallery root by the very same algorithm
(`get_safe_browse_path` with the gallery base as root), the request succeeding
only if both phases succeed. -/
theorem gallery_path_two_phase (fs : Fs) (root : List String)
    (rel galleryRoot : String) :
    (galleryRoot = "" →
      get_safe_gallery_path fs root rel galleryRoot = .error .galleryNotSelected) ∧
    (galleryRoot ≠ "" →
      get_safe_gallery_path fs root rel galleryRoot =
        match get_safe_browse_path fs root galleryRoot with
        | .error e => .error e
        | .ok galleryBase =>
            match get_safe_browse_path fs galleryBase rel with
            | .error e => .error e
            | .ok p => .ok (p, galleryBase)) := by
  constructor
  · intro h
    simp [get_safe_gallery_path, h]
  · intro h
    unfold get_safe_gallery_path
    rw [if_neg h]
    cases hb : get_safe_browse_path fs root galleryRoot with
    | error e => rfl
    | ok galleryBase =>
        show (if (fs.resolve galleryBase).isPrefixOf (browseCandidate fs galleryBase rel)
                then Except.ok (browseCandidate fs galleryBase rel, galleryBase)
                else Except.error SandboxError.pathOutsideRoot) = _
        by_cases hp : (fs.resolve galleryBase).isPrefixOf (browseCandidate fs galleryBase rel) = true
        · rw [if_pos hp]
          show _ = (match get_safe_browse_path fs galleryBase rel with
            | .error e => Except.error e
            | .ok p => Except.ok (p, galleryBase))
          have : get_safe_browse_path fs galleryBase rel = .ok (browseCandidate fs galleryBase rel) := by
            unfold get_safe_browse_path
            exact if_pos hp
          rw [this]
        · rw [if_neg hp]
          have : get_safe_browse_path fs galleryBase rel = .error .pathOutsideRoot := by
            unfold get_safe_browse_path
            exact if_neg hp
          show _ = (match get_safe_browse_path fs galleryBase rel with
            | .error e => Except.error e
            | .ok p => Except.ok (p, galleryBase))
          rw [this]

/-- C3 witness: the empty gallery root is rejected as `GalleryNotSelected`,
and with gallery root `"gal"` the concrete two-phase decomposition holds. -/
theorem gallery_path_two_phase_witness :
    get_safe_gallery_path fs0 ["mnt"] "photos" "" = .error .galleryNotSelected ∧
    get_safe_gallery_path fs0 ["mnt"] "photos" "gal" =
      match get_safe_browse_path fs0 ["mnt"] "gal" with
      | .error e => .error e
      | .ok galleryBase =>
          match get_safe_browse_path fs0 galleryBase "photos" with
          | .error e => .error e
          | .ok p => .ok (p, galleryBase) :=
  ⟨(gallery_path_two_phase fs0 ["mnt"] "photos" "").1 rfl,
   (gallery_path_two_phase fs0 ["mnt"] "photos" "gal").2 (by decide)⟩

lemma lookupFile_append {C : Type} (d₁ d₂ : Dir C) (n : String) :
    lookupFile (d₁ ++ d₂) n =
      (lookupFile d₁ n).orElse (fun _ => lookupFile d₂ n) := by
  unfold lookupFile
  rw [List.find?_append]
  cases List.find? (fun p => p.1 == n) d₁ with
  | none => simp [Option.orElse]
  | some p => simp [Option.orElse]

lemma lookup_isSome_iff_mem_fileNames {C : Type} (d : Dir C) (n : String) :
    (lookupFile d n).isSome = true ↔ n ∈ fileNames d := by
  unfold lookupFile fileNames
  rw [Option.isSome_map', List.find?_isSome]
  constructor
  · rintro ⟨p, hp, he⟩
    exact List.mem_map.mpr ⟨p, hp, beq_iff_eq.mp he⟩
  · intro hm
    obtain ⟨p, hp, he⟩ := List.mem_map.mp hm
    exact ⟨p, hp, beq_iff_eq.mpr he⟩

lemma lookupFile_of_mem_append {C : Type} (d : Dir C) (e : String × C) (n : String)
    (h : n ∈ fileNames d) : lookupFile (d ++ [e]) n = lookupFile d n := by
  rw [lookupFile_append]
  obtain ⟨c, hc⟩ := Option.isSome_iff_exists.mp ((lookup_isSome_iff_mem_fileNames d n).mpr h)
  rw [hc]
  rfl

lemma decDigits_of_div_eq_zero {n : Nat} (h : n / 10 = 0) :
    decDigits n = [Nat.digitChar (n % 10)] := by
  rw [decDigits]
  exact dif_pos h

lemma decDigits_of_div_ne_zero {n : Nat} (h : ¬ n / 10 = 0) :
    decDigits n = decDigits (n / 10) ++ [Nat.digitChar (n % 10)] := by
  rw [decDigits]
  exact dif_neg h

lemma toDigitsCore_eq_decDigits :
    ∀ (f n : Nat) (ds : List Char), n < f →
      Nat.toDigitsCore 10 f n ds = decDigits n ++ ds := by
  intro f
  induction f with
  | zero => intro n ds h; omega
  | succ f ih =>
      intro n ds h
      simp only [Nat.toDigitsCore]
      by_cases h10 : n / 10 = 0
      · rw [if_pos h10, decDigits_of_div_eq_zero h10]
        rfl
      · rw [if_neg h10, decDigits_of_div_ne_zero h10]
        have hlt : n / 10 < f := by
          have h1 : 0 < n := by
            by_contra h0
            have : n = 0 := by omega
            simp [this] at h10
          have := Nat.div_lt_self h1 (show 1 < 10 by norm_num)
          omega
        rw [ih (n / 10) (Nat.digitChar (n % 10) :: ds) hlt]
        simp

lemma repr_data_eq_decDigits (n : Nat) : (Nat.repr n).data = decDigits n := by
  show (List.asString (Nat.toDigitsCore 10 (n + 1) n [])).data = decDigits n
  rw [toDigitsCore_eq_decDigits (n + 1) n [] (Nat.lt_succ_self n)]
  simp [List.asString]

lemma digitVal_digitChar : ∀ r < 10, digitVal (Nat.digitChar r) = r := by decide

lemma charsVal_append_singleton (l : List Char) (c : Char) :
    charsVal (l ++ [c]) = 10 * charsVal l + digitVal c := by
  simp [charsVal, List.foldl_append]

lemma charsVal_decDigits (n : Nat) : charsVal (decDigits n) = n := by
  induction n using Nat.strong_induction_on with
  | _ n ih =>
      by_cases h10 : n / 10 = 0
      · rw [decDigits_of_div_eq_zero h10]
        have hmod : n % 10 = n := by omega
        have : charsVal [Nat.digitChar (n % 10)] = digitVal (Nat.digitChar (n % 10)) := by
          simp [charsVal]
        rw [this, digitVal_digitChar (n % 10) (Nat.mod_lt n (by norm_num)), hmod]
      · have h1 : 0 < n := by
          by_contra h0
          have : n = 0 := by omega
          simp [this] at h10
        rw [decDigits_of_div_ne_zero h10, charsVal_append_singleton,
          ih (n / 10) (Nat.div_lt_self h1 (by norm_num)),
          digitVal_digitChar (n % 10) (Nat.mod_lt n (by norm_num))]
        omega

lemma repr_injective : Function.Injective Nat.repr := by
  intro a b h
  have hd : decDigits a = decDigits b := by
    rw [← repr_data_eq_decDigits, ← repr_data_eq_decDigits, h]
  have := congrArg charsVal hd
  rwa [charsVal_decDigits, charsVal_decDigits] at this

lemma numberedName_injective (pre : String) :
    Function.Injective (numberedName pre) := by
  intro a b h
  unfold numberedName at h
  have hd := congrArg String.data h
  simp only [String.data_append] at hd
  have h1 := List.append_cancel_right hd
  have h2 := List.append_cancel_left h1
  exact repr_injective (by apply String.ext; exact h2)

lemma exists_free_counter (taken : List String) (pre : String) :
    ∃ c, 1 ≤ c ∧ c ≤ taken.length + 1 ∧ numberedName pre c ∉ taken := by
  by_contra hcon
  push_neg at hcon
  have hinj : Function.Injective (fun k => numberedName pre (k + 1)) := by
    intro a b hab
    have := numberedName_injective pre hab
    omega
  have hnd : ((List.range (taken.length + 1)).map
      (fun k => numberedName pre (k + 1))).Nodup :=
    (List.nodup_range _).map hinj
  have hsub : ∀ x ∈ (List.range (taken.length + 1)).map
      (fun k => numberedName pre (k + 1)), x ∈ taken := by
    intro x hx
    obtain ⟨k, hk, rfl⟩ := List.mem_map.mp hx
    exact hcon (k + 1) (by omega) (by have := List.mem_range.mp hk; omega)
  have h1 : ((List.range (taken.length + 1)).map
      (fun k => numberedName pre (k + 1))).toFinset.card = taken.length + 1 := by
    rw [List.toFinset_card_of_nodup hnd]
    simp
  have h2 : ((List.range (taken.length + 1)).map
      (fun k => numberedName pre (k + 1))).toFinset ⊆ taken.toFinset := by
    intro x hx
    exact List.mem_toFinset.mpr (hsub x (List.mem_toFinset.mp hx))
  have h3 := Finset.card_le_card h2
  have h4 := taken.toFinset_card_le
  omega

lemma searchFrom_spec (taken : List String) (pre : String) :
    ∀ (fuel c : Nat), (∃ k, k ≤ fuel ∧ numberedName pre (c + k) ∉ taken) →
      ∃ K, K ≤ fuel ∧ searchFrom taken pre c fuel = numberedName pre (c + K) ∧
        numberedName pre (c + K) ∉ taken ∧
        ∀ j, j < K → numberedName pre (c + j) ∈ taken := by
  intro fuel
  induction fuel with
  | zero =>
      rintro c ⟨k, hk, hfree⟩
      have hk0 : k = 0 := by omega
      subst hk0
      exact ⟨0, Nat.le_refl 0, rfl, hfree, fun j hj => absurd hj (Nat.not_lt_zero j)⟩
  | succ fuel ih =>
      rintro c ⟨k, hk, hfree⟩
      by_cases hmem : numberedName pre c ∈ taken
      · have hk1 : 1 ≤ k := by
          rcases Nat.eq_zero_or_pos k with hk0 | hk0
          · subst hk0; simp at hfree; exact absurd hmem hfree
          · exact hk0
        obtain ⟨K', hK', heq, hfree', hall'⟩ := ih (c + 1)
          ⟨k - 1, by omega, by rwa [show c + 1 + (k - 1) = c + k by omega]⟩
        refine ⟨K' + 1, by omega, ?_, ?_, ?_⟩
        · simp only [searchFrom, if_pos hmem]
          rw [heq, show c + 1 + K' = c + (K' + 1) by omega]
        · rwa [show c + (K' + 1) = c + 1 + K' by omega]
        · intro j hj
          match j with
          | 0 => simpa using hmem
          | j' + 1 =>
              have := hall' j' (by omega)
              rwa [show c + 1 + j' = c + (j' + 1) by omega] at this
      · refine ⟨0, Nat.zero_le _, ?_, by simpa using hmem, fun j hj => absurd hj (Nat.not_lt_zero j)⟩
        simp only [searchFrom, if_neg hmem, Nat.add_zero]

lemma chooseOutputName_spec (taken : List String) (pre : String) :
    (baseOutputName pre ∉ taken ∧ chooseOutputName taken pre = baseOutputName pre) ∨
    (baseOutputName pre ∈ taken ∧ ∃ c, 1 ≤ c ∧ c ≤ taken.length + 1 ∧
      chooseOutputName taken pre = numberedName pre c ∧
      numberedName pre c ∉ taken ∧
      ∀ k, 1 ≤ k → k < c → numberedName pre k ∈ taken) := by
  unfold chooseOutputName
  by_cases hb : baseOutputName pre ∈ taken
  · right
    refine ⟨hb, ?_⟩
    rw [if_pos hb]
    obtain ⟨c₀, hc1, hc2, hcfree⟩ := exists_free_counter taken pre
    obtain ⟨K, hK, heq, hfreeK, hall⟩ := searchFrom_spec taken pre (taken.length + 1) 1
      ⟨c₀ - 1, by omega, by rwa [show 1 + (c₀ - 1) = c₀ by omega]⟩
    have hKle : 1 + K ≤ c₀ := by
      by_contra hgt
      push_neg at hgt
      have hmem := hall (c₀ - 1) (by omega)
      rw [show 1 + (c₀ - 1) = c₀ by omega] at hmem
      exact hcfree hmem
    refine ⟨1 + K, by omega, by omega, heq, hfreeK, ?_⟩
    intro k hk1 hkK
    have := hall (k - 1) (by omega)
    rwa [show 1 + (k - 1) = k by omega] at this
  · left
    exact ⟨hb, if_neg hb⟩

lemma chooseOutputName_not_mem (taken : List String) (pre : String) :
    chooseOutputName taken pre ∉ taken := by
  rcases chooseOutputName_spec taken pre with ⟨hfree, heq⟩ | ⟨_, c, _, _, heq, hfree, _⟩ <;>
    rw [heq] <;> exact hfree

/-- C9: for every finite set of pre-existing filenames, the output-naming
collision loop terminates — the chosen name is free, and it is either the base
name or the numbered name of the first free counter scanning upward from 1,
reached within `taken.length + 1` steps. -/
theorem output_name_search_terminates (taken : List String) (pre : String) :
    chooseOutputName taken pre ∉ taken ∧
    (chooseOutputName taken pre = baseOutputName pre ∨
      ∃ c, 1 ≤ c ∧ c ≤ taken.length + 1 ∧
        chooseOutputName taken pre = numberedName pre c ∧
        ∀ k, 1 ≤ k → k < c → numberedName pre k ∈ taken) := by
  rcases chooseOutputName_spec taken pre with ⟨hfree, heq⟩ | ⟨_, c, h1, h2, heq, hfree, hall⟩
  · exact ⟨heq ▸ hfree, Or.inl heq⟩
  · exact ⟨heq ▸ hfree, Or.inr ⟨c, h1, h2, heq, hall⟩⟩

/-- C9 witness: with `photo_edited.jpg` and `photo_edited_1.jpg` already on
disk, the loop stops at a name not present in the directory. -/
theorem output_name_search_terminates_witness :
    chooseOutputName ["photo_edited.jpg", "photo_edited_1.jpg"] "photo_edited" ∉
      ["photo_edited.jpg", "photo_edited_1.jpg"] :=
  (output_name_search_terminates ["photo_edited.jpg", "photo_edited_1.jpg"] "photo_edited").1

lemma apply_edits_ok_iff {C : Type} (env : PilEnv) (codec : Codec C) (dir : Dir C)
    (src : String) (ops : List EditOp) ( pfx sfx : String) (d' : Dir C) (n' : String) :
    apply_edits env codec dir src ops pfx sfx = .ok (d', n') ↔
      ∃ content edited,
        lookupFile dir src = some content ∧
        applyOps env (codec.decode content) ops = .ok edited ∧
        n' = chooseOutputName (fileNames dir) ( pfx ++ stemOf src ++ sfx) ∧
        d' = dir ++ [(n', codec.encodeJpeg edited)] := by
  cases h1 : lookupFile dir src with
  | none =>
      have hrun : apply_edits env codec dir src ops pfx sfx = .error .notFound := by
        unfold apply_edits
        rw [h1]
      rw [hrun]
      constructor
      · intro h
        exact absurd h (by simp)
      · rintro ⟨content', edited', hc, _, _, _⟩
        exact absurd hc (by simp)
  | some content =>
      cases h2 : applyOps env (codec.decode content) ops with
      | error e =>
          have hrun : apply_edits env codec dir src ops pfx sfx = .error e := by
            unfold apply_edits
            rw [h1]
            simp only [h2]
          rw [hrun]
          constructor
          · intro h
            exact absurd h (by simp)
          · rintro ⟨content', edited', hc, he, _, _⟩
            injection hc with hc
            subst hc
            rw [h2] at he
            exact absurd he (by simp)
      | ok edited =>
          have hrun : apply_edits env codec dir src ops pfx sfx =
              .ok (dir ++ [(chooseOutputName (fileNames dir) ( pfx ++ stemOf src ++ sfx),
                      codec.encodeJpeg edited)],
                  chooseOutputName (fileNames dir) ( pfx ++ stemOf src ++ sfx)) := by
            unfold apply_edits
            rw [h1]
            simp only [h2]
          rw [hrun]
          simp only [Except.ok.injEq, Prod.mk.injEq]
          constructor
          · rintro ⟨hd, hn⟩
            subst hn
            subst hd
            exact ⟨content, edited, rfl, h2, rfl, rfl⟩
          · rintro ⟨content', edited', hc, he, hn, hd⟩
            injection hc with hc
            subst hc
            rw [h2] at he
            injection he with he
            subst he
            subst hn
            subst hd
            exact ⟨rfl, rfl⟩

/-- C2: for every source file, operation list and outcome, `apply_edits`
leaves the source file's contents byte-identical — it only ever appends a
fresh-named file, and on any failure the directory is untouched. -/
theorem apply_edits_preserves_source {C : Type} (env : PilEnv) (codec : Codec C)
    (dir : Dir C) (src : String) (ops : List EditOp) ( pfx sfx : String) :
    lookupFile (applyEditsDir env codec dir src ops pfx sfx) src =
      lookupFile dir src := by
  unfold applyEditsDir
  cases hrun : apply_edits env codec dir src ops pfx sfx with
  | error e => rfl
  | ok p =>
      obtain ⟨content, edited, hc, he, hn, hd⟩ :=
        (apply_edits_ok_iff env codec dir src ops pfx sfx p.1 p.2).mp (by rw [hrun])
      show lookupFile p.1 src = lookupFile dir src
      rw [hd]
      exact lookupFile_of_mem_append dir _ src
        ((lookup_isSome_iff_mem_fileNames dir src).mp (by rw [hc]; rfl))

/-- C4: a successful `apply_edits` names its output
`{output_prefix}{stem}{output_suffix}.jpg`, or the first upward-scanning
numbered variant `_1`, `_2`, … when names collide; the created name was not
previously in use, no pre-existing file (the source included) is overwritten,
and repeating the identical request succeeds again with a distinct numbered
name. -/
theorem apply_edits_output_naming {C : Type} (env : PilEnv) (codec : Codec C)
    (dir : Dir C) (src : String) (ops : List EditOp) ( pfx sfx : String)
    (d₁ : Dir C) (n₁ : String)
    (hrun : apply_edits env codec dir src ops pfx sfx = .ok (d₁, n₁)) :
    n₁ ∉ fileNames dir ∧
    (n₁ = baseOutputName ( pfx ++ stemOf src ++ sfx) ∨
      (baseOutputName ( pfx ++ stemOf src ++ sfx) ∈ fileNames dir ∧
        ∃ c, 1 ≤ c ∧ n₁ = numberedName ( pfx ++ stemOf src ++ sfx) c ∧
          ∀ k, 1 ≤ k → k < c → numberedName ( pfx ++ stemOf src ++ sfx) k ∈ fileNames dir)) ∧
    (∀ n, n ∈ fileNames dir → lookupFile d₁ n = lookupFile dir n) ∧
    (∃ d₂ n₂, apply_edits env codec d₁ src ops pfx sfx = .ok (d₂, n₂) ∧
      n₂ ≠ n₁ ∧ n₂ ∉ fileNames d₁ ∧
      ∃ c, 1 ≤ c ∧ n₂ = numberedName ( pfx ++ stemOf src ++ sfx) c) := by
  obtain ⟨content, edited, hc, he, hn, hd⟩ :=
    (apply_edits_ok_iff env codec dir src ops pfx sfx d₁ n₁).mp hrun
  have hsrc : src ∈ fileNames dir :=
    (lookup_isSome_iff_mem_fileNames dir src).mp (by rw [hc]; rfl)
  have hfree : n₁ ∉ fileNames dir := hn ▸ chooseOutputName_not_mem (fileNames dir) _
  have hnames : fileNames d₁ = fileNames dir ++ [n₁] := by
    rw [hd]
    simp [fileNames]
  refine ⟨hfree, ?_, ?_, ?_⟩
  · rcases chooseOutputName_spec (fileNames dir) ( pfx ++ stemOf src ++ sfx) with
      ⟨_, heq⟩ | ⟨hbase, c, h1c, _, heq, _, hall⟩
    · exact Or.inl (hn.trans heq)
    · exact Or.inr ⟨hbase, c, h1c, hn.trans heq, hall⟩
  · intro n hmem
    rw [hd]
    exact lookupFile_of_mem_append dir _ n hmem
  · have hsrc1 : lookupFile d₁ src = some content := by
      rw [hd, lookupFile_of_mem_append dir _ src hsrc]
      exact hc
    refine ⟨d₁ ++ [(chooseOutputName (fileNames d₁) ( pfx ++ stemOf src ++ sfx),
        codec.encodeJpeg edited)],
      chooseOutputName (fileNames d₁) ( pfx ++ stemOf src ++ sfx), ?_, ?_, ?_, ?_⟩
    · exact (apply_edits_ok_iff env codec d₁ src ops pfx sfx _ _).mpr
        ⟨content, edited, hsrc1, he, rfl, rfl⟩
    · intro heq2
      have hmem1 : n₁ ∈ fileNames d₁ := by
        rw [hnames]
        exact List.mem_append_right _ (List.mem_singleton.mpr rfl)
      exact chooseOutputName_not_mem (fileNames d₁) _ (heq2 ▸ hmem1)
    · exact chooseOutputName_not_mem (fileNames d₁) _
    · have hbase1 : baseOutputName ( pfx ++ stemOf src ++ sfx) ∈ fileNames d₁ := by
        rcases chooseOutputName_spec (fileNames dir) ( pfx ++ stemOf src ++ sfx) with
          ⟨_, heq⟩ | ⟨hbase, _⟩
        · rw [hnames, hn, heq]
          exact List.mem_append_right _ (List.mem_singleton.mpr rfl)
        · rw [hnames]
          exact List.mem_append_left _ hbase
      rcases chooseOutputName_spec (fileNames d₁) ( pfx ++ stemOf src ++ sfx) with
        ⟨hnb, _⟩ | ⟨_, c, h1c, _, heq, _, _⟩
      · exact absurd hbase1 hnb
      · exact ⟨c, h1c, heq⟩

/-- C4 witness: a concrete successful run on a directory containing only
`photo.jpg`; the produced name `photo_edited.jpg` was not previously in use. -/
theorem apply_edits_output_naming_witness :
    "photo_edited.jpg" ∉ fileNames [("photo.jpg", (7 : Nat))] :=
  (apply_edits_output_naming pilEnv0 codec0 [("photo.jpg", (7 : Nat))] "photo.jpg" []
    "" "_edited" [("photo.jpg", (7 : Nat)), ("photo_edited.jpg", 100)]
    "photo_edited.jpg" (by rfl)).1

lemma applyOps_append (env : PilEnv) (img : Image) (l₁ l₂ : List EditOp) :
    applyOps env img (l₁ ++ l₂) =
      match applyOps env img l₁ with
      | .ok i => applyOps env i l₂
      | .error e => .error e := by
  induction l₁ generalizing img with
  | nil => rfl
  | cons op rest ih =>
      show applyOps env img (op :: (rest ++ l₂)) = _
      simp only [applyOps]
      cases applyOp env img op with
      | ok img' => exact ih img'
      | error e => rfl

lemma unknown_mem_applyOps_error (env : PilEnv) (img : Image) (ops : List EditOp)
    (t : Option String) (hmem : EditOp.unknown t ∈ ops) :
    ∃ e, applyOps env img ops = .error e := by
  induction ops generalizing img with
  | nil => cases hmem
  | cons op rest ih =>
      rcases List.mem_cons.mp hmem with heq | htail
      · subst heq
        exact ⟨.invalidParams ("Unknown operation type: " ++ t.getD "None"), rfl⟩
      · cases hop : applyOp env img op with
        | error e => exact ⟨e, by simp only [applyOps, hop]⟩
        | ok img' =>
            obtain ⟨e, he⟩ := ih img' htail
            exact ⟨e, by simp only [applyOps, hop, he]⟩

/-- C5: operations are applied strictly in list order, each acting on the
in-memory image produced by the previous one (splitting the list splits the
run); an operation of a kind outside rotate/crop/resize/flip anywhere in the
list makes the whole request fail; and on any failure no file is created or
modified — persistence happens only after the full sequence succeeds. -/
theorem apply_edits_order_and_unknown_fatal (C : Type) :
    (∀ (env : PilEnv) (img : Image) (l₁ l₂ : List EditOp),
      applyOps env img (l₁ ++ l₂) =
        match applyOps env img l₁ with
        | .ok i => applyOps env i l₂
        | .error e => .error e) ∧
    (∀ (env : PilEnv) (codec : Codec C) (dir : Dir C) (src : String)
        (ops : List EditOp) ( pfx sfx : String) (t : Option String),
      EditOp.unknown t ∈ ops →
        (∃ e, apply_edits env codec dir src ops pfx sfx = .error e) ∧
        applyEditsDir env codec dir src ops pfx sfx = dir) ∧
    (∀ (env : PilEnv) (codec : Codec C) (dir : Dir C) (src : String)
        (ops : List EditOp) ( pfx sfx : String) (e : EditError),
      apply_edits env codec dir src ops pfx sfx = .error e →
        applyEditsDir env codec dir src ops pfx sfx = dir) := by
  refine ⟨applyOps_append, ?_, ?_⟩
  · intro env codec dir src ops pfx sfx t hmem
    have herr : ∃ e, apply_edits env codec dir src ops pfx sfx = .error e := by
      cases hc : lookupFile dir src with
      | none =>
          refine ⟨.notFound, ?_⟩
          unfold apply_edits
          rw [hc]
      | some content =>
          obtain ⟨e, he⟩ := unknown_mem_applyOps_error env (codec.decode content) ops t hmem
          refine ⟨e, ?_⟩
          unfold apply_edits
          rw [hc]
          simp only [he]
    obtain ⟨e, he⟩ := herr
    exact ⟨⟨e, he⟩, by unfold applyEditsDir; rw [he]⟩
  · intro env codec dir src ops pfx sfx e he
    unfold applyEditsDir
    rw [he]

/-- C5 witness: a request containing the unsupported kind `"sepia"` fails and
leaves the directory exactly as it was. -/
theorem apply_edits_order_and_unknown_fatal_witness :
    (∃ e, apply_edits pilEnv0 codec0 [("photo.jpg", (7 : Nat))] "photo.jpg"
      [EditOp.unknown (some "sepia")] "" "_edited" = .error e) ∧
    applyEditsDir pilEnv0 codec0 [("photo.jpg", (7 : Nat))] "photo.jpg"
      [EditOp.unknown (some "sepia")] "" "_edited" = [("photo.jpg", (7 : Nat))] :=
  (apply_edits_order_and_unknown_fatal Nat).2.1 pilEnv0 codec0
    [("photo.jpg", (7 : Nat))] "photo.jpg" [EditOp.unknown (some "sepia")] "" "_edited"
    (some "sepia") (List.mem_singleton.mpr rfl)

lemma applyOp_crop_eq (env : PilEnv) (img : Image) (ox oy ow oh : Option Int) :
    applyOp env img (.crop ox oy ow oh) =
      (if ox.getD 0 < 0 ∨ oy.getD 0 < 0 ∨
          ow.getD ((img.width : Int) - ox.getD 0) ≤ 0 ∨
          oh.getD ((img.height : Int) - oy.getD 0) ≤ 0 then
        .error (.invalidParams "Invalid crop dimensions")
      else if ox.getD 0 + ow.getD ((img.width : Int) - ox.getD 0) > (img.width : Int) ∨
          oy.getD 0 + oh.getD ((img.height : Int) - oy.getD 0) > (img.height : Int) then
        .error (.invalidParams "Crop extends beyond image bounds")
      else
        .ok (cropImage img (ox.getD 0).toNat (oy.getD 0).toNat
          (ow.getD ((img.width : Int) - ox.getD 0)).toNat
          (oh.getD ((img.height : Int) - oy.getD 0)).toNat)) := rfl

/-- C6: a crop operation, evaluated against the image's current dimensions
W × H (the width and height defaulting to the remaining extent when omitted),
raises the parameter-validation error exactly when `x < 0`, `y < 0`, `w ≤ 0`,
`h ≤ 0`, `x + w > W` or `y + h > H`; otherwise it yields the rectangle
`(x, y, w, h)`; and when it is invalid, an edit request reaching it with that
current image fails with the validation error and creates no file. -/
theorem crop_validation (env : PilEnv) (img : Image) (ox oy ow oh : Option Int) :
    ((∃ m, applyOp env img (.crop ox oy ow oh) = .error (.invalidParams m)) ↔
      cropBad img ox oy ow oh) ∧
    (¬ cropBad img ox oy ow oh →
      applyOp env img (.crop ox oy ow oh) =
        .ok (cropImage img (ox.getD 0).toNat (oy.getD 0).toNat
          (ow.getD ((img.width : Int) - ox.getD 0)).toNat
          (oh.getD ((img.height : Int) - oy.getD 0)).toNat)) ∧
    (∀ (C : Type) (codec : Codec C) (dir : Dir C) (src : String) (content : C)
        (ops₁ : List EditOp) ( pfx sfx : String),
      lookupFile dir src = some content →
      applyOps env (codec.decode content) ops₁ = .ok img →
      cropBad img ox oy ow oh →
        (∃ m, apply_edits env codec dir src (ops₁ ++ [.crop ox oy ow oh]) pfx sfx =
          .error (.invalidParams m)) ∧
        applyEditsDir env codec dir src (ops₁ ++ [.crop ox oy ow oh]) pfx sfx = dir) := by
  have hbad : cropBad img ox oy ow oh →
      ∃ m, applyOp env img (.crop ox oy ow oh) = .error (.invalidParams m) := by
    intro hb
    rw [applyOp_crop_eq]
    by_cases h1 : ox.getD 0 < 0 ∨ oy.getD 0 < 0 ∨
        ow.getD ((img.width : Int) - ox.getD 0) ≤ 0 ∨
        oh.getD ((img.height : Int) - oy.getD 0) ≤ 0
    · exact ⟨"Invalid crop dimensions", by rw [if_pos h1]⟩
    · have h2 : ox.getD 0 + ow.getD ((img.width : Int) - ox.getD 0) > (img.width : Int) ∨
          oy.getD 0 + oh.getD ((img.height : Int) - oy.getD 0) > (img.height : Int) := by
        unfold cropBad at hb
        tauto
      exact ⟨"Crop extends beyond image bounds", by rw [if_neg h1, if_pos h2]⟩
  have hok : ¬ cropBad img ox oy ow oh →
      applyOp env img (.crop ox oy ow oh) =
        .ok (cropImage img (ox.getD 0).toNat (oy.getD 0).toNat
          (ow.getD ((img.width : Int) - ox.getD 0)).toNat
          (oh.getD ((img.height : Int) - oy.getD 0)).toNat) := by
    intro hb
    unfold cropBad at hb
    push_neg at hb
    obtain ⟨hx, hy, hw, hh, hxw, hyh⟩ := hb
    rw [applyOp_crop_eq, if_neg (by push_neg; exact ⟨hx, hy, hw, hh⟩),
      if_neg (by push_neg; exact ⟨hxw, hyh⟩)]
  refine ⟨⟨?_, hbad⟩, hok, ?_⟩
  · rintro ⟨m, hm⟩
    by_contra hb
    rw [hok hb] at hm
    exact absurd hm (by simp)
  · intro C codec dir src content ops₁ pfx sfx hc hops hb
    obtain ⟨m, hm⟩ := hbad hb
    have herr : apply_edits env codec dir src (ops₁ ++ [.crop ox oy ow oh]) pfx sfx =
        .error (.invalidParams m) := by
      unfold apply_edits
      rw [hc]
      have hrunops : applyOps env (codec.decode content) (ops₁ ++ [.crop ox oy ow oh]) =
          .error (.invalidParams m) := by
        rw [applyOps_append, hops]
        show (match applyOp env img (.crop ox oy ow oh) with
          | .ok i => applyOps env i []
          | .error e => .error e) = _
        rw [hm]
      simp only [hrunops]
    exact ⟨⟨m, herr⟩, by unfold applyEditsDir; rw [herr]⟩

/-- C6 witness: cropping a 100 × 50 image to a 101-wide rectangle fails with
the validation error and the directory is unchanged. -/
theorem crop_validation_witness :
    (∃ m, apply_edits pilEnv0 codec0 [("photo.jpg", (7 : Nat))] "photo.jpg"
      [EditOp.crop (some 0) (some 0) (some 101) none] "" "_edited" =
        .error (.invalidParams m)) ∧
    applyEditsDir pilEnv0 codec0 [("photo.jpg", (7 : Nat))] "photo.jpg"
      [EditOp.crop (some 0) (some 0) (some 101) none] "" "_edited" =
        [("photo.jpg", (7 : Nat))] :=
  (crop_validation pilEnv0 (codec0.decode 7) (some 0) (some 0) (some 101) none).2.2
    Nat codec0 [("photo.jpg", (7 : Nat))] "photo.jpg" 7 [] "" "_edited"
    rfl rfl (by unfold cropBad; decide)

/-- C7 counterexample: resizing a 100 × 50 image with both `width = 10` and
`height = 10` given produces exactly 10 × 10 — the aspect ratio is not
preserved and the dimensions are forced — whereas scaling to fit within the
box while preserving aspect ratio, as the claim states, would give 10 × 5. -/
theorem resize_forces_exact_dims :
    (applyOp pilEnv0 img0 (.resize (some 10) (some 10))).map
        (fun i => (i.width, i.height)) = .ok (10, 10) ∧
    specFitWithinBox 100 50 10 10 = (10, 5) ∧
    ((10, 10) : Nat × Nat) ≠ (10, 5) ∧
    img0.width * 10 ≠ 10 * img0.height := by
  refine ⟨rfl, rfl, by decide, by decide⟩

/-- C7 (amended): a resize with both width and height given (and nonzero)
forces exactly those dimensions, without preserving the aspect ratio; when
only one of the two is given (nonzero), the other is computed from the aspect
ratio (exact ratio truncated toward zero, as Python's `int()` does). -/
theorem resize_semantics (env : PilEnv) (img : Image) (w h : Int) :
    (w ≠ 0 → h ≠ 0 →
      (applyOp env img (.resize (some w) (some h))).map (fun i => (i.width, i.height)) =
        .ok (w.toNat, h.toNat)) ∧
    (w ≠ 0 →
      (applyOp env img (.resize (some w) none)).map (fun i => (i.width, i.height)) =
        .ok (w.toNat, (((img.height : Int) * w).tdiv (img.width : Int)).toNat)) ∧
    (h ≠ 0 →
      (applyOp env img (.resize none (some h))).map (fun i => (i.width, i.height)) =
        .ok ((((img.width : Int) * h).tdiv (img.height : Int)).toNat, h.toNat)) := by
  refine ⟨?_, ?_, ?_⟩
  · intro hw hh
    have hw' : (w != 0) = true := bne_iff_ne.mpr hw
    have hh' : (h != 0) = true := bne_iff_ne.mpr hh
    simp [applyOp, truthyInt, hw', hh']
    rfl
  · intro hw
    have hw' : (w != 0) = true := bne_iff_ne.mpr hw
    simp [applyOp, truthyInt, hw']
    rfl
  · intro hh
    have hh' : (h != 0) = true := bne_iff_ne.mpr hh
    simp [applyOp, truthyInt, hh']
    rfl

/-- C7 witness: resizing the 100 × 50 image to 200 × 30 yields exactly
200 × 30. -/
theorem resize_semantics_witness :
    (applyOp pilEnv0 img0 (.resize (some 200) (some 30))).map
        (fun i => (i.width, i.height)) = .ok (200, 30) :=
  (resize_semantics pilEnv0 img0 200 30).1 (by decide) (by decide)

/-- C8: rotation uses the clockwise-positive caller convention (the source
negates the angle before handing it to PIL's counter-clockwise `rotate`) with
the canvas expanded to fit: rotating a W × H image by 90, 180 and 270 degrees
yields H × W, W × H and H × W canvases, and the 90° case moves input pixel
(y, H − 1 − x) to output position (x, y) — a clockwise quarter turn. -/
theorem rotate_right_angle_semantics (env : PilEnv) (img : Image) :
    applyOp env img (.rotate (some 90)) =
      .ok { width := img.height, height := img.width
            pix := fun x y => img.pix y (img.height - 1 - x) } ∧
    applyOp env img (.rotate (some 180)) =
      .ok { width := img.width, height := img.height
            pix := fun x y => img.pix (img.width - 1 - x) (img.height - 1 - y) } ∧
    applyOp env img (.rotate (some 270)) =
      .ok { width := img.height, height := img.width
            pix := fun x y => img.pix (img.width - 1 - y) x } :=
  ⟨rfl, rfl, rfl⟩

/-- C10: a flip whose `direction` is omitted is not an error — it defaults to
`"horizontal"` and mirrors the image left-right (exactly as an explicit
`"horizontal"` does); `"vertical"` mirrors top-bottom; only a present value
outside those two raises the validation error. -/
theorem flip_default_horizontal (env : PilEnv) (img : Image) :
    applyOp env img (.flip none) =
      .ok { width := img.width, height := img.height
            pix := fun x y => img.pix (img.width - 1 - x) y } ∧
    applyOp env img (.flip (some "horizontal")) =
      .ok { width := img.width, height := img.height
            pix := fun x y => img.pix (img.width - 1 - x) y } ∧
    applyOp env img (.flip (some "vertical")) =
      .ok { width := img.width, height := img.height
            pix := fun x y => img.pix x (img.height - 1 - y) } ∧
    (∀ d, d ≠ "horizontal" → d ≠ "vertical" →
      applyOp env img (.flip (some d)) =
        .error (.invalidParams ("Unknown flip direction: " ++ d))) := by
  refine ⟨rfl, rfl, rfl, ?_⟩
  intro d hd1 hd2
  have hflip : applyOp env img (.flip (some d)) =
      (if d = "horizontal" then .ok (mirrorImage img)
       else if d = "vertical" then .ok (flipImage img)
       else .error (.invalidParams ("Unknown flip direction: " ++ d))) := rfl
  rw [hflip, if_neg hd1, if_neg hd2]

/-- C10 witness: the direction `"diagonal"` raises the flip validation
error. -/
theorem flip_default_horizontal_witness :
    applyOp pilEnv0 img0 (.flip (some "diagonal")) =
      .error (.invalidParams ("Unknown flip direction: " ++ "diagonal")) :=
  (flip_default_horizontal pilEnv0 img0).2.2.2 "diagonal" (by decide) (by decide)

/-- C1 witness: on a concrete symlink-free filesystem, `"photos"` resolves
inside the root and is accepted, while `"../../etc/passwd"` resolves outside
and is rejected with the denied-access error. -/
theorem browse_path_accepts_iff_descendant_witness :
    get_safe_browse_path fs0 ["mnt"] "photos" =
      .ok (browseCandidate fs0 ["mnt"] "photos") ∧
    get_safe_browse_path fs0 ["mnt"] "../../etc/passwd" = .error .pathOutsideRoot :=
  ⟨(browse_path_accepts_iff_descendant fs0 ["mnt"] "photos").1.mpr
      (Or.inr ⟨["photos"], by decide, by decide⟩),
   (browse_path_accepts_iff_descendant fs0 ["mnt"] "../../etc/passwd").2.mpr
      (by
        rintro (h | ⟨rest, hne, heq⟩)
        · exact absurd h (by decide)
        · rw [show browseCandidate fs0 ["mnt"] "../../etc/passwd" = ["etc", "passwd"]
            from rfl] at heq
          have h1 : "etc" = "mnt" := by injection heq
          exact absurd h1 (by decide))⟩
